import Mathlib

/-!
Shallow embedding of the LariBot core (`src/app.py`) and verification of the
frozen claims about it.

The embedding models Python strings through their character lists
(`String.data` in Lean), so every operation below is a plain structural
recursion that the kernel can evaluate.  Each definition carries a note
saying which Python construct it models.
-/

namespace LariBot

/-- One output dict of `Chatbot.detect_code_blocks` (app.py lines 79-97).
`language = some l` models the presence of the `"language"` key; text
segments never carry the key, code segments always do. -/
structure Segment where
  type : String
  content : String
  language : Option String
deriving DecidableEq, Repr

/-- One transcript entry as built by `ChatInterface.append_chat_message`
(app.py lines 52-61).  `language = some l` models presence of the
`"language"` key in the dict. -/
structure Message where
  role : String
  content : String
  type : String
  language : Option String
deriving DecidableEq, Repr

/-- One response dict of `Chatbot.process_message` (app.py lines 130-133,
165-169, 173-176); the source uses Portuguese keys `tipo`, `conteudo`,
`linguagem`.  `linguagem = none` models both an absent key and the Python
value `None` (the consumer `main` reads it with `.get`, which identifies
the two). -/
structure Resp where
  tipo : String
  conteudo : String
  linguagem : Option String
deriving DecidableEq, Repr

/-! ### Character-level string primitives (models of Python str methods) -/

/-- Models Python `text.split(c)` for a one-character separator: keeps empty
fields and yields `[""]` on the empty string. -/
def splitOnChar (c : Char) : List Char → List (List Char)
  | [] => [[]]
  | x :: xs =>
    if x = c then [] :: splitOnChar c xs
    else
      match splitOnChar c xs with
      | [] => [[x]]
      | g :: gs => (x :: g) :: gs

/-- Models Python `text.split('\n')` on a whole string. -/
def splitLines (s : String) : List String :=
  (splitOnChar '\n' s.data).map String.mk

/-- `isPrefixOfChars p s` : the character list `p` is a prefix of `s`. -/
def isPrefixOfChars : List Char → List Char → Bool
  | [], _ => true
  | _ :: _, [] => false
  | a :: as, b :: bs => a = b && isPrefixOfChars as bs

/-- Models Python `s.startswith(p)` for one candidate. -/
def strStartsWith (s p : String) : Bool :=
  isPrefixOfChars p.data s.data

/-- Models Python `s.strip()` (drop leading and trailing whitespace). -/
def trimChars (cs : List Char) : List Char :=
  ((cs.dropWhile Char.isWhitespace).reverse.dropWhile Char.isWhitespace).reverse

/-- Models Python `s.strip()` on a whole string. -/
def strTrim (s : String) : String :=
  String.mk (trimChars s.data)

/-- Models the Python truthiness test `if line.strip():` being FALSE. -/
def isBlank (s : String) : Bool :=
  (trimChars s.data).isEmpty

/-- Models Python slicing `s[n:]` (by code points). -/
def strDrop (n : Nat) (s : String) : String :=
  String.mk (s.data.drop n)

/-- Models Python `s.lower()` (the directive words are ASCII, where
`Char.toLower` agrees with Python). -/
def strToLower (s : String) : String :=
  String.mk (s.data.map Char.toLower)

/-- Models Python `sep.join(xs)`. -/
def joinWith (sep : String) : List String → String
  | [] => ""
  | [s] => s
  | s :: rest => s ++ sep ++ joinWith sep rest

/-- Models Python `'\n'.join(xs)` as used at app.py line 81. -/
def joinLines : List String → String :=
  joinWith "\n"

/-- Models Python `message.split(' ', 1)[1]` (app.py line 127): the text
after the first space character, `none` when no space exists (in Python
the indexing `[1]` then raises `IndexError`). -/
def afterFirstSpaceChars : List Char → Option (List Char)
  | [] => none
  | c :: cs => if c = ' ' then some cs else afterFirstSpaceChars cs

/-- `splitAfterFirstSpace s` : the image prompt extracted from `s`. -/
def splitAfterFirstSpace (s : String) : Option String :=
  (afterFirstSpaceChars s.data).map String.mk

/-! ### The Response Segmenter (`Chatbot.detect_code_blocks`, app.py 68-99) -/

/-- The loop body of `detect_code_blocks` (app.py lines 76-97), with the
mutable state (`in_code_block`, `current_block`, `current_language`) passed
explicitly.  The branch order mirrors the source:
`if line.startswith('```')` / `elif in_code_block` / `else: if line.strip()`.
As in the source, opening a fence leaves the accumulator untouched and
closing one leaves the language tag untouched. -/
def detectLoop : List String → Bool → List String → String → List Segment
  | [], _, _, _ => []
  | line :: rest, inCode, cur, lang =>
    if strStartsWith line "```" then
      if inCode then
        ⟨"code", joinLines cur, some lang⟩ :: detectLoop rest false [] lang
      else
        detectLoop rest true cur (strTrim (strDrop 3 line))
    else if inCode then
      detectLoop rest inCode (cur ++ [line]) lang
    else if isBlank line then
      detectLoop rest inCode cur lang
    else
      ⟨"text", line, none⟩ :: detectLoop rest inCode cur lang

/-- `Chatbot.detect_code_blocks` (app.py lines 68-99): split the reply on
newlines and run the scanning loop from the closed state.  On open the
source sets `current_language = language if language else ""` with
`language = line[3:].strip()`, which equals `line[3:].strip()` itself. -/
def detect_code_blocks (text : String) : List Segment :=
  detectLoop (splitLines text) false [] ""

/-! ### Spec-side notions for the round-trip claim (C1)

These definitions formalise the VOCABULARY of the spec sentence ("balanced
fence markers", "non-blank-line content", "blank lines outside fences") in
terms of the same line classification the source uses. -/

/-- The fence state after scanning `lines` starting from state `b`
(each line starting with the fence marker toggles the state).  An input is
"balanced" when scanning from the closed state ends closed. -/
def fenceState : List String → Bool → Bool
  | [], b => b
  | l :: rest, b => fenceState rest (if strStartsWith l "```" then !b else b)

/-- The "content lines" of an input: every line except fence-marker lines
and blank lines outside fences (blank lines inside a fence are content). -/
def keptLines : List String → Bool → List String
  | [], _ => []
  | l :: rest, b =>
    if strStartsWith l "```" then keptLines rest (!b)
    else if b then l :: keptLines rest b
    else if isBlank l then keptLines rest b
    else l :: keptLines rest b

/-- The content lines of an input grouped as the Segmenter groups them:
one singleton group per emitted text line, one group per closed fenced
block (an unterminated trailing block is dropped, mirroring the loop). -/
def keptGroups : List String → Bool → List String → List (List String)
  | [], _, _ => []
  | l :: rest, b, cur =>
    if strStartsWith l "```" then
      if b then cur :: keptGroups rest false []
      else keptGroups rest true cur
    else if b then keptGroups rest true (cur ++ [l])
    else if isBlank l then keptGroups rest b cur
    else [l] :: keptGroups rest b cur

/-- `okBlocks lines b k = true` when no fenced block closed during the scan
is empty (`k` counts the lines accumulated in the currently open block). -/
def okBlocks : List String → Bool → Nat → Bool
  | [], _, _ => true
  | l :: rest, b, k =>
    if strStartsWith l "```" then
      if b then decide (k ≠ 0) && okBlocks rest false 0
      else okBlocks rest true k
    else if b then okBlocks rest true (k + 1)
    else okBlocks rest b k

/-- One step of the segmenter state (`in_code_block`, `current_block`,
`current_language`), mirroring `detectLoop` without the emitted output. -/
def scanStep (l : String) : Bool × List String × String → Bool × List String × String
  | (b, cur, lang) =>
    if strStartsWith l "```" then
      if b then (false, [], lang)
      else (true, cur, strTrim (strDrop 3 l))
    else if b then (true, cur ++ [l], lang)
    else (b, cur, lang)

/-- The segmenter state after scanning a list of lines. -/
def scanState : List String → Bool × List String × String → Bool × List String × String
  | [], st => st
  | l :: rest, st => scanState rest (scanStep l st)

/-! ### Transcript Store (`ChatInterface`, app.py 11-61) and the
history window -/

/-- `ChatInterface.append_chat_message` (app.py lines 52-61): the Message
appended to `st.session_state.messages`.  The `language` key is set only
when the argument is truthy (`if language:`), so `None` and `""` both
leave it unset. -/
def append_chat_message (role : String) (content : String)
    (msg_type : String := "text") (language : Option String := none) : Message :=
  ⟨role, content, msg_type,
    match language with
    | some l => if l = "" then none else some l
    | none => none⟩

/-- Models Python `xs[-n:]` (app.py line 144) for `n ≥ 1`: the last `n`
elements, or all of them when fewer exist. -/
def listRecent (n : Nat) (xs : List Message) : List Message :=
  xs.drop (xs.length - n)

/-- The filter at app.py line 145: `msg['type'] in ['text', 'code']`. -/
def isTextOrCode (m : Message) : Bool :=
  m.type = "text" || m.type = "code"

/-- The system instruction (app.py lines 138-140, a Python triple-quoted
string whose continuation lines carry 17 spaces of source indentation). -/
def systemInstruction : String :=
  "Você é um assistente prestativo e amigável.\n                 Você fornece respostas claras e úteis, mantendo um tom profissional e amigável.\n                 Quando fornecendo exemplos de código, use blocos de código markdown com a linguagem especificada."

/-- The context list sent to the chat-completion boundary on the non-image
path (app.py lines 137-152): system instruction, then the text/code
entries among the last 5 elements of `history`, projected to
(role, content), then the new user message. -/
def buildContext (message : String) (history : List Message) : List (String × String) :=
  ("system", systemInstruction) ::
    ((listRecent 5 history).filter isTextOrCode).map (fun m => (m.role, m.content))
    ++ [("user", message)]

/-- The claim's reading of the context ("the last 5 prior TEXT/CODE
messages"): filter the store to text/code messages first, then take the
last 5.  Stated from the spec's words, for comparison with `buildContext`. -/
def specContextC2 (message : String) (history : List Message) : List (String × String) :=
  ("system", systemInstruction) ::
    (listRecent 5 (history.filter isTextOrCode)).map (fun m => (m.role, m.content))
    ++ [("user", message)]

/-! ### Request Dispatch (`Chatbot.process_message`, app.py 118-176)

The two network boundaries are passed in as oracles:
`imageGen` models `client.images.generate` + URL projection wrapped in the
`try/except` of `generate_image` (app.py 101-116), which returns `None` on
any failure; `chat` models `client.chat.completions.create` + content
projection, `Except.error e` meaning the call raised an exception whose
`str` is `e`. -/

/-- The exceptions that can reach the `except` at app.py line 171:
the `IndexError` from `message.split(' ', 1)[1]`, or an exception raised
by the chat-completion call. -/
inductive PyErr where
  | indexError
  | chatError (msg : String)
deriving DecidableEq, Repr

/-- Python `str(e)` for the two modelled exceptions; `str` of an
`IndexError` raised by over-indexing a list is "list index out of range". -/
def pyErrStr : PyErr → String
  | .indexError => "list index out of range"
  | .chatError m => m

/-- `Chatbot.generate_image` (app.py 101-116): the boundary call with its
internal `try/except` already folded into the oracle's `Option`. -/
def generate_image (imageGen : String → Option String) (prompt : String) : Option String :=
  imageGen prompt

/-- The image-directive test at app.py line 126:
`message.lower().startswith(('/imagem', '/img', '/gerar imagem', '/criar imagem'))`. -/
def isImageCommand (message : String) : Bool :=
  strStartsWith (strToLower message) "/imagem" ||
  strStartsWith (strToLower message) "/img" ||
  strStartsWith (strToLower message) "/gerar imagem" ||
  strStartsWith (strToLower message) "/criar imagem"

/-- One response dict of the chat path (app.py lines 165-169):
`linguagem` is `block.get("language", "")` for code blocks and `None`
otherwise. -/
def respOfSegment (b : Segment) : Resp :=
  ⟨b.type, b.content, if b.type = "code" then some (b.language.getD "") else none⟩

/-- The chat-completion leg of `process_message` (app.py lines 137-169),
up to the exception handler: build the context, call the boundary,
segment the reply. -/
def chatTurn (message : String) (history : List Message)
    (chat : List (String × String) → Except String String) : Except PyErr (List Resp) :=
  match chat (buildContext message history) with
  | .error e => .error (.chatError e)
  | .ok reply => .ok ((detect_code_blocks reply).map respOfSegment)

/-- The body of the `try` block of `process_message` (app.py lines 122-169).
When the input matches an image directive the prompt is extracted (raising
`IndexError` when no space exists); a successful image call returns the
single image response, and a failed one FALLS THROUGH to the chat path,
exactly as the missing `return` at app.py lines 129-134 does. -/
def processTry (message : String) (history : List Message)
    (imageGen : String → Option String)
    (chat : List (String × String) → Except String String) : Except PyErr (List Resp) :=
  if isImageCommand message then
    match splitAfterFirstSpace message with
    | none => .error .indexError
    | some prompt =>
      match generate_image imageGen prompt with
      | some url => .ok [⟨"imagem", url, none⟩]
      | none => chatTurn message history chat
  else
    chatTurn message history chat

/-- The synthetic error response built by the handler at app.py 173-176. -/
def errorResp (e : PyErr) : Resp :=
  ⟨"texto", "Desculpe, ocorreu um erro: " ++ pyErrStr e, none⟩

/-- `Chatbot.process_message` (app.py 118-176): the `try` body with every
raised exception converted by the `except` clause into the single
synthetic text response. -/
def process_message (message : String) (history : List Message)
    (imageGen : String → Option String)
    (chat : List (String × String) → Except String String) : List Resp :=
  match processTry message history imageGen chat with
  | .ok r => r
  | .error e => [errorResp e]

/-- The result of a turn that reaches the chat-completion boundary: the
chat leg of `process_message` with the same exception handling.  Used to
state what the image-failure path falls through to. -/
def chatCompletionResult (message : String) (history : List Message)
    (chat : List (String × String) → Except String String) : List Resp :=
  match chatTurn message history chat with
  | .ok r => r
  | .error e => [errorResp e]

/-! ### The interaction loop (`main`, app.py 178-224) -/

/-- The Message appended for one response dict by the loop at app.py
lines 214-223: `tipo == "imagem"` appends an image message (no language),
`tipo == "code"` appends a code message with `response.get("linguagem")`,
anything else appends a plain text message. -/
def assistantEntry (r : Resp) : Message :=
  if r.tipo = "imagem" then append_chat_message "assistant" r.conteudo "image" none
  else if r.tipo = "code" then append_chat_message "assistant" r.conteudo "code" r.linguagem
  else append_chat_message "assistant" r.conteudo "text" none

/-- All Messages appended to the Transcript Store during one turn of
`main` (app.py 199-223): the user prompt (line 201, default type "text"),
then one assistant Message per response.  Note that `main` builds
`historico` AFTER appending the user prompt (lines 201, 208), so the
history handed to `process_message` already contains the new message. -/
def turnAppends (message : String) (history : List Message)
    (imageGen : String → Option String)
    (chat : List (String × String) → Except String String) : List Message :=
  append_chat_message "user" message "text" none ::
    (process_message message history imageGen chat).map assistantEntry

/-! ### Helper lemmas: joining lines -/

theorem joinWith_append (sep : String) :
    ∀ (a b : List String), a ≠ [] → b ≠ [] →
      joinWith sep (a ++ b) = joinWith sep a ++ sep ++ joinWith sep b := by
  intro a
  induction a with
  | nil => intro b h hb; exact absurd rfl h
  | cons x xs ih =>
    intro b _ hb
    cases xs with
    | nil =>
      cases b with
      | nil => exact absurd rfl hb
      | cons y ys => simp [joinWith]
    | cons z zs =>
      have hstep : joinWith sep ((x :: z :: zs) ++ b) =
          x ++ sep ++ joinWith sep ((z :: zs) ++ b) := by
        simp [joinWith]
      rw [hstep, ih b (by simp) hb]
      simp [joinWith, String.append_assoc]

theorem flatten_ne_nil_of_head_ne_nil (g : List String) (G : List (List String))
    (hg : g ≠ []) : (g :: G).flatten ≠ [] := by
  simp only [List.flatten_cons]
  intro h
  rcases List.append_eq_nil.mp h with ⟨h1, _⟩
  exact hg h1

theorem joinLines_map_joinLines :
    ∀ (G : List (List String)), (∀ g ∈ G, g ≠ []) →
      joinLines (G.map joinLines) = joinLines G.flatten := by
  intro G
  induction G with
  | nil => intro _; simp [joinLines, joinWith]
  | cons g G' ih =>
    intro h
    cases G' with
    | nil => simp [joinLines, joinWith]
    | cons g2 G2 =>
      have hg : g ≠ [] := h g (by simp)
      have hg2 : g2 ≠ [] := h g2 (by simp)
      have hflat : (g2 :: G2).flatten ≠ [] := flatten_ne_nil_of_head_ne_nil g2 G2 hg2
      have htail : ∀ x ∈ g2 :: G2, x ≠ [] := by
        intro x hx; exact h x (List.mem_cons_of_mem _ hx)
      have hstep : joinLines (((g :: g2 :: G2)).map joinLines) =
          joinLines g ++ "\n" ++ joinLines ((g2 :: G2).map joinLines) := by
        simp [joinLines, joinWith]
      rw [hstep, ih htail]
      have : (g :: g2 :: G2).flatten = g ++ (g2 :: G2).flatten := by simp
      rw [this, joinLines, joinWith_append "\n" g ((g2 :: G2).flatten) hg hflat]

/-! ### Helper lemmas: the segmenter versus the content-line grouping -/

theorem joinLines_singleton (l : String) : joinLines [l] = l := rfl

theorem detectLoop_map_content :
    ∀ (lines : List String) (b : Bool) (cur : List String) (lang : String),
      (detectLoop lines b cur lang).map (fun s => s.content) =
        (keptGroups lines b cur).map joinLines := by
  intro lines
  induction lines with
  | nil => intro b cur lang; simp [detectLoop, keptGroups]
  | cons l rest ih =>
    intro b cur lang
    by_cases hf : strStartsWith l "```" = true
    · cases b with
      | true => simp [detectLoop, keptGroups, hf, ih]
      | false => simp [detectLoop, keptGroups, hf, ih]
    · cases b with
      | true => simp [detectLoop, keptGroups, hf, ih]
      | false =>
        by_cases hb : isBlank l = true
        · simp [detectLoop, keptGroups, hf, hb, ih]
        · simp [detectLoop, keptGroups, hf, hb, ih, joinLines_singleton]

theorem keptGroups_flatten :
    ∀ (lines : List String) (b : Bool) (cur : List String),
      fenceState lines b = false → (b = false → cur = []) →
      (keptGroups lines b cur).flatten = (if b then cur else []) ++ keptLines lines b := by
  intro lines
  induction lines with
  | nil =>
    intro b cur hbal hcur
    simp [fenceState] at hbal
    subst hbal
    simp [keptGroups, keptLines, hcur rfl]
  | cons l rest ih =>
    intro b cur hbal hcur
    by_cases hf : strStartsWith l "```" = true
    · cases b with
      | true =>
        have hbal' : fenceState rest false = false := by
          simpa [fenceState, hf] using hbal
        have := ih false [] hbal' (fun _ => rfl)
        simp [keptGroups, keptLines, hf, this]
      | false =>
        have hbal' : fenceState rest true = false := by
          simpa [fenceState, hf] using hbal
        have := ih true cur hbal' (by intro h; exact absurd h (by simp))
        simp [keptGroups, keptLines, hf, hcur rfl] at this ⊢
        simpa [hcur rfl] using this
    · cases b with
      | true =>
        have hbal' : fenceState rest true = false := by
          simpa [fenceState, hf] using hbal
        have := ih true (cur ++ [l]) hbal' (by intro h; exact absurd h (by simp))
        simp [keptGroups, keptLines, hf, this]
      | false =>
        have hbal' : fenceState rest false = false := by
          simpa [fenceState, hf] using hbal
        have := ih false cur hbal' hcur
        by_cases hb : isBlank l = true
        · simp [keptGroups, keptLines, hf, hb, this]
        · simp [keptGroups, keptLines, hf, hb, this]

theorem keptGroups_nonempty :
    ∀ (lines : List String) (b : Bool) (cur : List String),
      okBlocks lines b cur.length = true →
      ∀ g ∈ keptGroups lines b cur, g ≠ [] := by
  intro lines
  induction lines with
  | nil => intro b cur _ g hg; simp [keptGroups] at hg
  | cons l rest ih =>
    intro b cur hok g hg
    by_cases hf : strStartsWith l "```" = true
    · cases b with
      | true =>
        simp [okBlocks, hf] at hok
        simp [keptGroups, hf] at hg
        rcases hg with hg | hg
        · subst hg
          intro hnil
          rw [hnil] at hok
          simp at hok
        · have hok' : okBlocks rest false ([] : List String).length = true := by
            simpa using hok.2
          exact ih false [] hok' g hg
      | false =>
        simp [okBlocks, hf] at hok
        simp [keptGroups, hf] at hg
        exact ih true cur (by simpa using hok) g hg
    · cases b with
      | true =>
        simp [okBlocks, hf] at hok
        simp [keptGroups, hf] at hg
        have hok' : okBlocks rest true (cur ++ [l]).length = true := by
          simpa [List.length_append] using hok
        exact ih true (cur ++ [l]) hok' g hg
      | false =>
        by_cases hb : isBlank l = true
        · simp [okBlocks, hf] at hok
          simp [keptGroups, hf, hb] at hg
          exact ih false cur (by simpa using hok) g hg
        · simp [okBlocks, hf] at hok
          simp [keptGroups, hf, hb] at hg
          rcases hg with hg | hg
          · subst hg; simp
          · exact ih false cur (by simpa using hok) g hg

/-! ### Claim C1 (round-trip of the Response Segmenter) -/

/-- C1, counterexample.  The claim says the concatenated `content` fields
reproduce the non-blank-line content of the input, losing ONLY blank lines
outside fences.  First conjunct: at the balanced input
"hi\n```\ncode\n```" the concatenation misses the two (non-blank)
fence-marker lines, so the claim as stated is false.  Second conjunct: at
the balanced input "```\n```\n```\n```" (two adjacent empty fenced
blocks) even the fence-marker-aware restatement fails, because the two
empty `content` fields joined by a newline do not equal the empty content
of the input; the amended claim therefore also excludes empty fenced
blocks. -/
theorem c1_counterexample :
    (fenceState (splitLines "hi\n```\ncode\n```") false = false ∧
      joinLines ((detect_code_blocks "hi\n```\ncode\n```").map (fun s => s.content)) ≠
        joinLines ((splitLines "hi\n```\ncode\n```").filter (fun l => !(isBlank l)))) ∧
    (fenceState (splitLines "```\n```\n```\n```") false = false ∧
      joinLines ((detect_code_blocks "```\n```\n```\n```").map (fun s => s.content)) ≠
        joinLines (keptLines (splitLines "```\n```\n```\n```") false)) := by
  decide

/-- C1, amended.  For every raw reply string whose fence markers are
balanced and in which no fenced block is empty, joining the `content`
fields of the emitted Segments with newlines reproduces, in order, the
content lines of the input: every line except the fence-marker lines
themselves and the blank lines outside fences (blank lines inside fences
are preserved). -/
theorem c1_roundtrip_amended (text : String)
    (hbal : fenceState (splitLines text) false = false)
    (hblocks : okBlocks (splitLines text) false 0 = true) :
    joinLines ((detect_code_blocks text).map (fun s => s.content)) =
      joinLines (keptLines (splitLines text) false) := by
  have hA := detectLoop_map_content (splitLines text) false [] ""
  have hD := keptGroups_nonempty (splitLines text) false [] (by simpa using hblocks)
  have hC := joinLines_map_joinLines (keptGroups (splitLines text) false []) hD
  have hB := keptGroups_flatten (splitLines text) false [] hbal (fun _ => rfl)
  rw [detect_code_blocks, hA, hC, hB]
  simp

/-- C1, witness: the amended round-trip evaluated at a concrete balanced
input with one tagged code block. -/
theorem c1_roundtrip_amended_witness :
    joinLines ((detect_code_blocks "intro\n```hs\nmain\n```\nbye").map (fun s => s.content)) =
        "intro\nmain\nbye" ∧
      joinLines (keptLines (splitLines "intro\n```hs\nmain\n```\nbye") false) =
        "intro\nmain\nbye" :=
  ⟨(c1_roundtrip_amended "intro\n```hs\nmain\n```\nbye" (by decide) (by decide)).trans
      (by decide),
    by decide⟩

/-! ### Claim C2 (the bounded context and the history window) -/

/-- Concrete six-message history whose last five contain an image message:
the store holds five text messages in total, but the code only considers
the last five entries BEFORE filtering. -/
def c2History : List Message :=
  [⟨"user", "m1", "text", none⟩, ⟨"assistant", "m2", "text", none⟩,
    ⟨"user", "m3", "text", none⟩, ⟨"assistant", "http://i", "image", none⟩,
    ⟨"user", "m4", "text", none⟩, ⟨"assistant", "m5", "text", none⟩]

/-- C2, counterexample.  The code windows the history to the last 5 entries
and THEN filters to text/code (app.py 144-145), so on `c2History` the
context carries only 4 prior messages (length 6 in total), while the
claim's "last 5 prior text/code messages" would carry 5 (length 7): the
two contexts differ. -/
theorem c2_counterexample :
    ((buildContext "q" c2History).length = 6 ∧ (specContextC2 "q" c2History).length = 7) ∧
      buildContext "q" c2History ≠ specContextC2 "q" c2History :=
  ⟨⟨by decide, by decide⟩, fun h => by
    have hl := congrArg List.length h
    revert hl
    decide⟩

/-- C2, amended.  (1) The history window `xs[-n:]` returns a suffix of the
store of length `min n (length xs)`, i.e. the last `n` messages in
original order, or all of them when fewer exist.  (2) The context consists
of exactly the system instruction, then the text/code-typed entries among
the LAST 5 ELEMENTS of the history argument (at most 5 of them, projected
to role and content, in original order), then the new user message.
(3) Because `main` appends the user prompt to the store before building
`historico` (app.py 201, 208), the history it passes already ends with the
new user message, so the context ends with that message twice. -/
theorem c2_context_amended :
    (∀ (n : Nat) (xs : List Message),
        (listRecent n xs).length = min n xs.length ∧
        listRecent n xs <:+ xs ∧
        (xs.length ≤ n → listRecent n xs = xs)) ∧
    (∀ (msg : String) (hist : List Message),
        buildContext msg hist =
          ("system", systemInstruction) ::
            ((listRecent 5 hist).filter isTextOrCode).map (fun m => (m.role, m.content))
            ++ [("user", msg)] ∧
        (((listRecent 5 hist).filter isTextOrCode).map (fun m => (m.role, m.content))).length ≤ 5) ∧
    (∀ (msg : String) (prior : List Message), ∃ pre,
        buildContext msg (prior ++ [append_chat_message "user" msg]) =
          pre ++ [("user", msg), ("user", msg)]) := by
  refine ⟨?_, ?_, ?_⟩
  · intro n xs
    refine ⟨?_, List.drop_suffix _ _, ?_⟩
    · rw [listRecent, List.length_drop]
      omega
    · intro h
      have h0 : xs.length - n = 0 := by omega
      rw [listRecent, h0, List.drop_zero]
  · intro msg hist
    refine ⟨rfl, ?_⟩
    have h1 : ((listRecent 5 hist).filter isTextOrCode).length ≤ (listRecent 5 hist).length :=
      List.length_filter_le _ _
    have h2 : (listRecent 5 hist).length = min 5 hist.length := by
      rw [listRecent, List.length_drop]
      omega
    rw [List.length_map]
    omega
  · intro msg prior
    have hk : (prior ++ [append_chat_message "user" msg]).length - 5 ≤ prior.length := by
      simp [List.length_append]
    have hdrop : listRecent 5 (prior ++ [append_chat_message "user" msg]) =
        prior.drop ((prior ++ [append_chat_message "user" msg]).length - 5) ++
          [append_chat_message "user" msg] := by
      rw [listRecent, List.drop_append_of_le_length hk]
    refine ⟨("system", systemInstruction) ::
      ((prior.drop ((prior ++ [append_chat_message "user" msg]).length - 5)).filter
        isTextOrCode).map (fun m => (m.role, m.content)), ?_⟩
    rw [buildContext, hdrop, List.filter_append, List.map_append]
    have hu : List.filter isTextOrCode [append_chat_message "user" msg] =
        [append_chat_message "user" msg] := rfl
    rw [hu]
    simp [append_chat_message]

/-- C2, witness: the window part of the amended claim at a concrete store
with 3 messages returns all 3 in original order. -/
theorem c2_context_amended_witness :
    listRecent 5 [⟨"user", "a", "text", none⟩, ⟨"assistant", "b", "text", none⟩,
        ⟨"user", "c", "text", none⟩] =
      [⟨"user", "a", "text", none⟩, ⟨"assistant", "b", "text", none⟩,
        ⟨"user", "c", "text", none⟩] :=
  (c2_context_amended.1 5 _).2.2 (by decide)

/-! ### Claim C3 (image-boundary failure) -/

/-- C3, counterexample.  The claim says an image-directive turn whose image
boundary fails produces no output at all and makes no chat-completion
call.  At input "/imagem x" with a failing image oracle and a chat oracle
replying "hello", the code returns the segmented CHAT reply (the missing
`return` at app.py 129-134 lets control fall through to the chat path), so
the output is non-empty and comes from the chat boundary. -/
theorem c3_counterexample :
    process_message "/imagem x" [] (fun _ => none) (fun _ => .ok "hello") =
        [⟨"text", "hello", none⟩] ∧
      process_message "/imagem x" [] (fun _ => none) (fun _ => .ok "hello") ≠ [] := by
  decide

/-- C3, amended.  For every image-directive input whose prompt extraction
succeeds, when the image-generation boundary fails the dispatch falls
through to the chat-completion path: the turn's result is exactly the
result of a chat-completion turn on the original message (segmented reply,
or the synthetic error segment when the chat call raises). -/
theorem c3_image_failure_amended (msg : String) (hist : List Message)
    (imageGen : String → Option String)
    (chat : List (String × String) → Except String String) (p : String)
    (hcmd : isImageCommand msg = true)
    (hsplit : splitAfterFirstSpace msg = some p)
    (hfail : imageGen p = none) :
    process_message msg hist imageGen chat = chatCompletionResult msg hist chat := by
  simp only [process_message, processTry, hcmd, if_true, hsplit, generate_image, hfail,
    chatCompletionResult]

/-- C3, witness: the amended fall-through at a concrete directive with a
failing image oracle. -/
theorem c3_image_failure_amended_witness :
    process_message "/imagem x" [] (fun _ => none) (fun _ => .ok "ok") =
      chatCompletionResult "/imagem x" [] (fun _ => .ok "ok") :=
  c3_image_failure_amended "/imagem x" [] (fun _ => none) (fun _ => .ok "ok") "x"
    (by decide) (by decide) rfl

/-! ### Claim C4 (chat-boundary exception handling) -/

/-- C4: whenever the turn reaches the chat-completion call (the input is
not an image directive, or it is one whose image call failed after a
successful prompt extraction) and that call raises an exception `e`,
`process_message` catches it and returns exactly one synthetic text
response whose content is the fixed error header followed by the
description of `e`; no exception propagates (the function is total and
returns the list). -/
theorem c4_chat_error_segment (msg : String) (hist : List Message)
    (imageGen : String → Option String)
    (chat : List (String × String) → Except String String) (e : String)
    (hpath : isImageCommand msg = false ∨
      (∃ p, splitAfterFirstSpace msg = some p ∧ imageGen p = none))
    (herr : chat (buildContext msg hist) = .error e) :
    process_message msg hist imageGen chat =
      [⟨"texto", "Desculpe, ocorreu um erro: " ++ e, none⟩] := by
  have hchat : chatTurn msg hist chat = .error (.chatError e) := by
    rw [chatTurn, herr]
  rcases hpath with hcmd | ⟨p, hsplit, hfail⟩
  · simp [process_message, processTry, hcmd, hchat, errorResp, pyErrStr]
  · by_cases hcmd : isImageCommand msg = true
    · simp [process_message, processTry, hcmd, hsplit, generate_image, hfail, hchat,
        errorResp, pyErrStr]
    · simp [process_message, processTry, hcmd, hchat, errorResp, pyErrStr]

/-- C4, witness: a plain chat message with a raising chat oracle yields the
single synthetic error segment. -/
theorem c4_chat_error_segment_witness :
    process_message "hello" [] (fun _ => none) (fun _ => .error "boom") =
      [⟨"texto", "Desculpe, ocorreu um erro: boom", none⟩] :=
  c4_chat_error_segment "hello" [] (fun _ => none) (fun _ => .error "boom") "boom"
    (Or.inl (by decide)) rfl

/-! ### Claim C7 (image directive, successful boundary) -/

/-- C7: for every input recognised as an image directive whose prompt
extraction (the remainder after the first space) succeeds, when the image
boundary returns a URL the dispatch returns exactly one image response
holding that URL — for every chat oracle, i.e. the chat boundary is never
consulted. -/
theorem c7_image_directive (msg : String) (hist : List Message)
    (imageGen : String → Option String)
    (chat : List (String × String) → Except String String) (p url : String)
    (hcmd : isImageCommand msg = true)
    (hsplit : splitAfterFirstSpace msg = some p)
    (hok : imageGen p = some url) :
    process_message msg hist imageGen chat = [⟨"imagem", url, none⟩] := by
  simp [process_message, processTry, hcmd, hsplit, generate_image, hok]

/-- C7, witness: on "/imagem a red fox" the extracted prompt is exactly
"a red fox" (the image oracle only answers that prompt) and the result is
the single image segment, with a chat oracle that would fail if called. -/
theorem c7_image_directive_witness :
    process_message "/imagem a red fox" []
        (fun p => if p = "a red fox" then some "http://img" else none)
        (fun _ => .error "no chat") = [⟨"imagem", "http://img", none⟩] :=
  c7_image_directive "/imagem a red fox" []
    (fun p => if p = "a red fox" then some "http://img" else none)
    (fun _ => .error "no chat") "a red fox" "http://img"
    (by decide) (by decide) (by decide)

/-! ### Claim C8 (image directive without a space) -/

/-- C8, counterexample.  The claim says a directive without a separator
falls through to the "empty-prompt behavior".  At input "/img" with an
image oracle that succeeds on every prompt (including the empty one), the
code does NOT invoke the image boundary with an empty prompt: the
`IndexError` from `message.split(' ', 1)[1]` is caught by the handler and
the turn returns the synthetic error segment instead. -/
theorem c8_counterexample :
    process_message "/img" [] (fun p => some ("url" ++ p)) (fun _ => .ok "hi") =
        [⟨"texto", "Desculpe, ocorreu um erro: list index out of range", none⟩] ∧
      process_message "/img" [] (fun p => some ("url" ++ p)) (fun _ => .ok "hi") ≠
        [⟨"imagem", "url", none⟩] := by
  decide

/-- C8, amended.  For every input matching an image-directive prefix that
contains no space character, prompt extraction raises an `IndexError`; the
per-turn handler catches it and converts it into a single synthetic text
segment with the fixed error header, the image boundary is never invoked,
and no exception propagates to the caller. -/
theorem c8_no_separator_amended (msg : String) (hist : List Message)
    (imageGen : String → Option String)
    (chat : List (String × String) → Except String String)
    (hcmd : isImageCommand msg = true)
    (hsplit : splitAfterFirstSpace msg = none) :
    process_message msg hist imageGen chat =
      [⟨"texto", "Desculpe, ocorreu um erro: list index out of range", none⟩] := by
  simp [process_message, processTry, hcmd, hsplit, errorResp, pyErrStr]

/-- C8, witness: the amended behaviour at the concrete input "/img". -/
theorem c8_no_separator_amended_witness :
    process_message "/img" [] (fun _ => some "u") (fun _ => .ok "hi") =
      [⟨"texto", "Desculpe, ocorreu um erro: list index out of range", none⟩] :=
  c8_no_separator_amended "/img" [] (fun _ => some "u") (fun _ => .ok "hi")
    (by decide) (by decide)

/-! ### Helper lemmas: decomposing a scan of the segmenter -/

theorem detectLoop_append :
    ∀ (xs ys : List String) (b : Bool) (cur : List String) (lang : String),
      detectLoop (xs ++ ys) b cur lang =
        detectLoop xs b cur lang ++
          detectLoop ys (scanState xs (b, cur, lang)).1
            (scanState xs (b, cur, lang)).2.1 (scanState xs (b, cur, lang)).2.2 := by
  intro xs
  induction xs with
  | nil => intro ys b cur lang; simp [detectLoop, scanState]
  | cons l rest ih =>
    intro ys b cur lang
    by_cases hf : strStartsWith l "```" = true
    · cases b with
      | true => simp [detectLoop, scanState, scanStep, hf, ih]
      | false => simp [detectLoop, scanState, scanStep, hf, ih]
    · cases b with
      | true => simp [detectLoop, scanState, scanStep, hf, ih]
      | false =>
        by_cases hb : isBlank l = true
        · simp [detectLoop, scanState, scanStep, hf, hb, ih]
        · simp [detectLoop, scanState, scanStep, hf, hb, ih]

theorem scanState_fst :
    ∀ (xs : List String) (b : Bool) (cur : List String) (lang : String),
      (scanState xs (b, cur, lang)).1 = fenceState xs b := by
  intro xs
  induction xs with
  | nil => intro b cur lang; simp [scanState, fenceState]
  | cons l rest ih =>
    intro b cur lang
    by_cases hf : strStartsWith l "```" = true
    · cases b with
      | true => simp [scanState, scanStep, fenceState, hf, ih]
      | false => simp [scanState, scanStep, fenceState, hf, ih]
    · cases b with
      | true => simp [scanState, scanStep, fenceState, hf, ih]
      | false => simp [scanState, scanStep, fenceState, hf, ih]

theorem fenceState_nofence :
    ∀ (xs : List String) (b : Bool),
      (∀ l ∈ xs, strStartsWith l "```" = false) → fenceState xs b = b := by
  intro xs
  induction xs with
  | nil => intro b _; rfl
  | cons l rest ih =>
    intro b h
    have hl : strStartsWith l "```" = false := h l (by simp)
    have hrest : ∀ x ∈ rest, strStartsWith x "```" = false := by
      intro x hx; exact h x (List.mem_cons_of_mem _ hx)
    simp [fenceState, hl, ih b hrest]

theorem detectLoop_open_nofence :
    ∀ (xs cur : List String) (lang : String),
      (∀ l ∈ xs, strStartsWith l "```" = false) → detectLoop xs true cur lang = [] := by
  intro xs
  induction xs with
  | nil => intro cur lang _; rfl
  | cons l rest ih =>
    intro cur lang h
    have hl : strStartsWith l "```" = false := h l (by simp)
    have hrest : ∀ x ∈ rest, strStartsWith x "```" = false := by
      intro x hx; exact h x (List.mem_cons_of_mem _ hx)
    simp [detectLoop, hl, ih (cur ++ [l]) lang hrest]

theorem detectLoop_closed_nofence :
    ∀ (xs cur : List String) (lang : String),
      (∀ l ∈ xs, strStartsWith l "```" = false) →
      detectLoop xs false cur lang =
        (xs.filter (fun l => !(isBlank l))).map (fun l => ⟨"text", l, none⟩) := by
  intro xs
  induction xs with
  | nil => intro cur lang _; rfl
  | cons l rest ih =>
    intro cur lang h
    have hl : strStartsWith l "```" = false := h l (by simp)
    have hrest : ∀ x ∈ rest, strStartsWith x "```" = false := by
      intro x hx; exact h x (List.mem_cons_of_mem _ hx)
    by_cases hb : isBlank l = true
    · simp [detectLoop, hl, hb, ih cur lang hrest]
    · simp [detectLoop, hl, hb, ih cur lang hrest]

theorem detectLoop_open_close :
    ∀ (body : List String) (cl : String) (tl cur : List String) (lang : String),
      (∀ l ∈ body, strStartsWith l "```" = false) → strStartsWith cl "```" = true →
      detectLoop (body ++ cl :: tl) true cur lang =
        ⟨"code", joinLines (cur ++ body), some lang⟩ :: detectLoop tl false [] lang := by
  intro body
  induction body with
  | nil => intro cl tl cur lang _ hcl; simp [detectLoop, hcl]
  | cons x xs ih =>
    intro cl tl cur lang h hcl
    have hx : strStartsWith x "```" = false := h x (by simp)
    have hxs : ∀ l ∈ xs, strStartsWith l "```" = false := by
      intro l hl; exact h l (List.mem_cons_of_mem _ hl)
    have := ih cl tl (cur ++ [x]) lang hxs hcl
    simp [detectLoop, hx, this, List.append_assoc]

/-! ### Claim C5 (unterminated fence) -/

/-- C5: for every input whose lines are plain (fence-marker-free) lines,
then an opening fence, then lines none of which close the fence, the
Segmenter emits NO Segment for the open fence or the lines accumulated in
it, and the output is exactly the single-line text Segments of the
non-blank lines before the fence. -/
theorem c5_unterminated_fence (text : String) (pre : List String) (fl : String)
    (tl : List String)
    (hsplit : splitLines text = pre ++ fl :: tl)
    (hpre : ∀ l ∈ pre, strStartsWith l "```" = false)
    (hfl : strStartsWith fl "```" = true)
    (htl : ∀ l ∈ tl, strStartsWith l "```" = false) :
    detect_code_blocks text =
      (pre.filter (fun l => !(isBlank l))).map (fun l => ⟨"text", l, none⟩) := by
  rw [detect_code_blocks, hsplit, detectLoop_append]
  rcases hst : scanState pre (false, [], "") with ⟨b', cur', lang'⟩
  have hb' : b' = false := by
    have h1 := scanState_fst pre false [] ""
    rw [hst, fenceState_nofence pre false hpre] at h1
    exact h1
  subst hb'
  have hopen : detectLoop (fl :: tl) false cur' lang' = [] := by
    have h1 : detectLoop (fl :: tl) false cur' lang' =
        detectLoop tl true cur' (strTrim (strDrop 3 fl)) := by
      simp [detectLoop, hfl]
    rw [h1]
    exact detectLoop_open_nofence tl cur' _ htl
  rw [detectLoop_closed_nofence pre [] "" hpre]
  simp [hopen]

/-- C5, witness: an input with two non-blank lines and a blank one before
an unterminated "```py" fence holding two lines: only the two text
Segments are emitted. -/
theorem c5_unterminated_fence_witness :
    detect_code_blocks "hello\n\nworld\n```py\ncode1\ncode2" =
      [⟨"text", "hello", none⟩, ⟨"text", "world", none⟩] :=
  (c5_unterminated_fence "hello\n\nworld\n```py\ncode1\ncode2"
      ["hello", "", "world"] "```py" ["code1", "code2"]
      (by decide) (by decide) (by decide) (by decide)).trans (by decide)

/-! ### Claim C6 (fenced block with a language tag) -/

/-- C6: for every input whose first line opens a fence, followed by
fence-marker-free block lines and a closing marker, the first emitted
Segment is a code Segment whose content is the block lines joined by
newlines and whose language is the text after the opening marker, trimmed
(empty string when absent); the rest of the output is the scan of the
remaining lines.  Instantiated at a two-line block tagged "python" this
yields exactly one code Segment (see the witness). -/
theorem c6_code_block_language (text : String) (fl : String) (body : List String)
    (cl : String) (tl : List String)
    (hsplit : splitLines text = fl :: body ++ cl :: tl)
    (hfl : strStartsWith fl "```" = true)
    (hbody : ∀ l ∈ body, strStartsWith l "```" = false)
    (hcl : strStartsWith cl "```" = true) :
    detect_code_blocks text =
      ⟨"code", joinLines body, some (strTrim (strDrop 3 fl))⟩ ::
        detectLoop tl false [] (strTrim (strDrop 3 fl)) := by
  rw [detect_code_blocks, hsplit, List.cons_append]
  have h1 : detectLoop (fl :: (body ++ cl :: tl)) false [] "" =
      detectLoop (body ++ cl :: tl) true [] (strTrim (strDrop 3 fl)) := by
    simp [detectLoop, hfl]
  rw [h1, detectLoop_open_close body cl tl [] _ hbody hcl]
  simp

/-- C6, witness: the concrete input of the claim — one fenced block tagged
`python` with two lines of code — yields exactly one code Segment with
language "python" and the two lines joined by a newline. -/
theorem c6_code_block_language_witness :
    detect_code_blocks "```python\nline1\nline2\n```" =
      [⟨"code", "line1\nline2", some "python"⟩] :=
  (c6_code_block_language "```python\nline1\nline2\n```" "```python"
      ["line1", "line2"] "```" []
      (by decide) (by decide) (by decide) (by decide)).trans (by decide)

/-! ### Claim C9 (the language/type invariant of the Transcript Store) -/

/-- C9, counterexample.  A chat reply containing an UNTAGGED fenced block
yields a code response whose `linguagem` is the empty string; because
`append_chat_message` only stores a truthy language (`if language:`,
app.py line 59), the appended assistant Message has `type = "code"` but NO
language field — the claimed "language set iff type = code" invariant
fails on a message the interaction loop itself appends. -/
theorem c9_counterexample :
    turnAppends "hi" [] (fun _ => none) (fun _ => .ok "```\nx=1\n```") =
        [⟨"user", "hi", "text", none⟩, ⟨"assistant", "x=1", "code", none⟩] ∧
      ¬ (((⟨"assistant", "x=1", "code", none⟩ : Message).language.isSome = true) ↔
        (⟨"assistant", "x=1", "code", none⟩ : Message).type = "code") := by
  decide

/-- C9, amended.  Every Message appended by one turn of the interaction
loop satisfies: a set language implies `type = "code"` (the converse can
fail, exactly when a code block carries an empty tag), any set language
tag is nonempty, and the type is one of "text", "code", "image". -/
theorem c9_language_invariant_amended (msg : String) (hist : List Message)
    (imageGen : String → Option String)
    (chat : List (String × String) → Except String String)
    (m : Message) (hm : m ∈ turnAppends msg hist imageGen chat) :
    (m.language.isSome = true → m.type = "code") ∧
      (∀ l, m.language = some l → l ≠ "") ∧
      (m.type = "text" ∨ m.type = "code" ∨ m.type = "image") := by
  rw [turnAppends] at hm
  rcases List.mem_cons.mp hm with h | h
  · subst h
    exact ⟨by simp [append_chat_message], by simp [append_chat_message], Or.inl rfl⟩
  · rcases List.mem_map.mp h with ⟨r, _, hr⟩
    subst hr
    by_cases h1 : r.tipo = "imagem"
    · refine ⟨?_, ?_, Or.inr (Or.inr ?_)⟩ <;> simp [assistantEntry, h1, append_chat_message]
    · by_cases h2 : r.tipo = "code"
      · refine ⟨fun _ => ?_, ?_, Or.inr (Or.inl ?_)⟩
        · simp [assistantEntry, h1, h2, append_chat_message]
        · intro l hl
          simp only [assistantEntry, h1, h2, if_false, if_true, append_chat_message] at hl
          rcases hlg : r.linguagem with _ | l0
          · rw [hlg] at hl; simp at hl
          · rw [hlg] at hl
            by_cases h0 : l0 = ""
            · simp [h0] at hl
            · simp [h0] at hl
              rw [← hl]
              exact h0
        · simp [assistantEntry, h1, h2, append_chat_message]
      · refine ⟨?_, ?_, Or.inl ?_⟩ <;> simp [assistantEntry, h1, h2, append_chat_message]

/-- C9, witness: the amended invariant evaluated at the code Message a
turn appends for a reply with a `python`-tagged block. -/
theorem c9_language_invariant_amended_witness :
    (((⟨"assistant", "x=1", "code", some "python"⟩ : Message).language.isSome = true →
        (⟨"assistant", "x=1", "code", some "python"⟩ : Message).type = "code") ∧
      (∀ l, (⟨"assistant", "x=1", "code", some "python"⟩ : Message).language = some l →
        l ≠ "") ∧
      ((⟨"assistant", "x=1", "code", some "python"⟩ : Message).type = "text" ∨
        (⟨"assistant", "x=1", "code", some "python"⟩ : Message).type = "code" ∨
        (⟨"assistant", "x=1", "code", some "python"⟩ : Message).type = "image")) :=
  c9_language_invariant_amended "hi" [] (fun _ => none)
    (fun _ => .ok "```python\nx=1\n```")
    ⟨"assistant", "x=1", "code", some "python"⟩ (by decide)

/-! ### Claim C10 (output invariants of the segmenter) -/

theorem detectLoop_invariants :
    ∀ (lines : List String) (b : Bool) (cur : List String) (lang : String),
      (∀ s ∈ detectLoop lines b cur lang,
        (s.type = "text" ∨ s.type = "code") ∧ (s.language.isSome = true ↔ s.type = "code")) ∧
      List.Sublist (((detectLoop lines b cur lang).filter (fun s => s.type = "text")).map
        (fun s => s.content)) lines := by
  intro lines
  induction lines with
  | nil =>
    intro b cur lang
    constructor
    · intro s hs; simp [detectLoop] at hs
    · simp [detectLoop]
  | cons l rest ih =>
    intro b cur lang
    by_cases hf : strStartsWith l "```" = true
    · cases b with
      | true =>
        have hdl : detectLoop (l :: rest) true cur lang =
            ⟨"code", joinLines cur, some lang⟩ :: detectLoop rest false [] lang := by
          simp [detectLoop, hf]
        rw [hdl]
        constructor
        · intro s hs
          rcases List.mem_cons.mp hs with h | h
          · subst h; exact ⟨Or.inr rfl, by simp⟩
          · exact (ih false [] lang).1 s h
        · have hfc : List.filter (fun s => s.type = "text")
              (⟨"code", joinLines cur, some lang⟩ :: detectLoop rest false [] lang) =
              List.filter (fun s => s.type = "text") (detectLoop rest false [] lang) := by
            simp [List.filter_cons]
          rw [hfc]
          exact ((ih false [] lang).2).cons l
      | false =>
        have hdl : detectLoop (l :: rest) false cur lang =
            detectLoop rest true cur (strTrim (strDrop 3 l)) := by
          simp [detectLoop, hf]
        rw [hdl]
        exact ⟨(ih true cur (strTrim (strDrop 3 l))).1,
          ((ih true cur (strTrim (strDrop 3 l))).2).cons l⟩
    · cases b with
      | true =>
        have hdl : detectLoop (l :: rest) true cur lang =
            detectLoop rest true (cur ++ [l]) lang := by
          simp [detectLoop, hf]
        rw [hdl]
        exact ⟨(ih true (cur ++ [l]) lang).1, ((ih true (cur ++ [l]) lang).2).cons l⟩
      | false =>
        by_cases hb : isBlank l = true
        · have hdl : detectLoop (l :: rest) false cur lang =
              detectLoop rest false cur lang := by
            simp [detectLoop, hf, hb]
          rw [hdl]
          exact ⟨(ih false cur lang).1, ((ih false cur lang).2).cons l⟩
        · have hdl : detectLoop (l :: rest) false cur lang =
              ⟨"text", l, none⟩ :: detectLoop rest false cur lang := by
            simp [detectLoop, hf, hb]
          rw [hdl]
          constructor
          · intro s hs
            rcases List.mem_cons.mp hs with h | h
            · subst h; exact ⟨Or.inl rfl, by simp⟩
            · exact (ih false cur lang).1 s h
          · have hfc : List.filter (fun s => s.type = "text")
                (⟨"text", l, none⟩ :: detectLoop rest false cur lang) =
                ⟨"text", l, none⟩ :: List.filter (fun s => s.type = "text")
                  (detectLoop rest false cur lang) := by
              simp [List.filter_cons]
            rw [hfc, List.map_cons]
            exact ((ih false cur lang).2).cons₂ l

theorem keptGroups_flatten_sublist :
    ∀ (lines : List String) (b : Bool) (cur : List String),
      (b = false → cur = []) →
      List.Sublist ((keptGroups lines b cur).flatten) (cur ++ lines) := by
  intro lines
  induction lines with
  | nil =>
    intro b cur hcur
    simp [keptGroups]
  | cons l rest ih =>
    intro b cur hcur
    by_cases hf : strStartsWith l "```" = true
    · cases b with
      | true =>
        have hkg : keptGroups (l :: rest) true cur = cur :: keptGroups rest false [] := by
          simp [keptGroups, hf]
        rw [hkg, List.flatten_cons]
        apply List.Sublist.append_left
        have h1 := ih false [] (fun _ => rfl)
        simp only [List.nil_append] at h1
        exact h1.cons l
      | false =>
        have hc := hcur rfl
        subst hc
        have hkg : keptGroups (l :: rest) false [] = keptGroups rest true [] := by
          simp [keptGroups, hf]
        rw [hkg]
        have h1 := ih true [] (fun h => Bool.noConfusion h)
        simp only [List.nil_append] at h1 ⊢
        exact h1.cons l
    · cases b with
      | true =>
        have hkg : keptGroups (l :: rest) true cur = keptGroups rest true (cur ++ [l]) := by
          simp [keptGroups, hf]
        rw [hkg]
        have h1 := ih true (cur ++ [l]) (fun h => Bool.noConfusion h)
        rw [List.append_assoc] at h1
        simpa using h1
      | false =>
        have hc := hcur rfl
        subst hc
        by_cases hb : isBlank l = true
        · have hkg : keptGroups (l :: rest) false [] = keptGroups rest false [] := by
            simp [keptGroups, hf, hb]
          rw [hkg]
          have h1 := ih false [] (fun _ => rfl)
          simp only [List.nil_append] at h1 ⊢
          exact h1.cons l
        · have hkg : keptGroups (l :: rest) false [] = [l] :: keptGroups rest false [] := by
            simp [keptGroups, hf, hb]
          rw [hkg, List.flatten_cons]
          have h1 := ih false [] (fun _ => rfl)
          simp only [List.nil_append] at h1 ⊢
          simp only [List.singleton_append]
          exact h1.cons₂ l

/-- C10: every Segment the segmenter emits has type "text" or "code" and
carries a language exactly when its type is "code"; every text Segment's
content is one of the input's lines verbatim, and the text Segments'
contents form a sublist of the input lines (no two source lines are ever
merged into one text Segment).  Moreover ALL Segments are emitted in
source-line order: the contents of the whole output, in emission order,
are exactly the newline-joins of the ordered groups of content lines
(`keptGroups` — one singleton group per text line, one group per closed
fenced block), and the concatenation of those groups, in the same order,
is a sublist of the input lines, so every Segment — text or code — sits in
the output in the relative order of its source lines. -/
theorem c10_segment_invariants (text : String) :
    (∀ s ∈ detect_code_blocks text,
        (s.type = "text" ∨ s.type = "code") ∧
        (s.language.isSome = true ↔ s.type = "code") ∧
        (s.type = "text" → s.content ∈ splitLines text)) ∧
      List.Sublist (((detect_code_blocks text).filter (fun s => s.type = "text")).map
        (fun s => s.content)) (splitLines text) ∧
      (detect_code_blocks text).map (fun s => s.content) =
        (keptGroups (splitLines text) false []).map joinLines ∧
      List.Sublist ((keptGroups (splitLines text) false []).flatten) (splitLines text) := by
  rw [detect_code_blocks]
  have h := detectLoop_invariants (splitLines text) false [] ""
  have hflat := keptGroups_flatten_sublist (splitLines text) false [] (fun _ => rfl)
  simp only [List.nil_append] at hflat
  refine ⟨?_, h.2, detectLoop_map_content (splitLines text) false [] "", hflat⟩
  intro s hs
  refine ⟨(h.1 s hs).1, (h.1 s hs).2, ?_⟩
  intro ht
  have hmem : s.content ∈
      ((detectLoop (splitLines text) false [] "").filter
        (fun s => s.type = "text")).map (fun s => s.content) :=
    List.mem_map.mpr ⟨s, List.mem_filter.mpr ⟨hs, by simp [ht]⟩, rfl⟩
  exact h.2.subset hmem

/-- C10, witness: the invariants evaluated at a concrete input holding a
text line, a code block and a trailing text line: the per-segment
properties at the first Segment, and the ordered correspondence between
the three emitted contents and the three content-line groups. -/
theorem c10_segment_invariants_witness :
    (((⟨"text", "a", none⟩ : Segment).type = "text" ∨
        (⟨"text", "a", none⟩ : Segment).type = "code") ∧
      ((⟨"text", "a", none⟩ : Segment).language.isSome = true ↔
        (⟨"text", "a", none⟩ : Segment).type = "code") ∧
      ((⟨"text", "a", none⟩ : Segment).type = "text" →
        (⟨"text", "a", none⟩ : Segment).content ∈ splitLines "a\n```py\nz\nw\n```\nb")) ∧
      (detect_code_blocks "a\n```py\nz\nw\n```\nb").map (fun s => s.content) =
        ["a", "z\nw", "b"] ∧
      (keptGroups (splitLines "a\n```py\nz\nw\n```\nb") false []).map joinLines =
        ["a", "z\nw", "b"] ∧
      (keptGroups (splitLines "a\n```py\nz\nw\n```\nb") false []).flatten =
        ["a", "z", "w", "b"] :=
  ⟨(c10_segment_invariants "a\n```py\nz\nw\n```\nb").1 ⟨"text", "a", none⟩ (by decide),
    ((c10_segment_invariants "a\n```py\nz\nw\n```\nb").2.2.1).trans (by decide),
    by decide, by decide⟩

end LariBot
